import Mathlib

/- Verification of two components of the Dante-Broggi rust fork:
   the vtable builder of src/librustc_mir/interpret/traits.rs and the ARM
   calling-convention classifier of src/librustc_target/abi/call/arm.rs.
   Each Rust function is embedded shallowly as a Lean function; machine
   state (the interpreter memory and the vtable cache) is passed
   explicitly, and fallible operations return Except values. -/

namespace Arm

/-- Register kinds (rustc RegKind). -/
inductive RegKind where
  | integer
  | float
  | vector
deriving DecidableEq

/-- A register unit: kind plus size in bytes (rustc Reg; Reg::i32() is 4 bytes). -/
structure Reg where
  kind : RegKind
  size : Nat
deriving DecidableEq

def Reg.i8 : Reg := { kind := RegKind.integer, size := 1 }

def Reg.i16 : Reg := { kind := RegKind.integer, size := 2 }

def Reg.i32 : Reg := { kind := RegKind.integer, size := 4 }

def Reg.i64 : Reg := { kind := RegKind.integer, size := 8 }

/-- Size in bits of a byte count (rustc Size::bits). -/
def bitsOfBytes (n : Nat) : Nat := 8 * n

/-- A repeated register unit (rustc Uniform): unit plus total size in bytes. -/
structure Uniform where
  unit : Reg
  total : Nat
deriving DecidableEq

/-- Size and alignment of a layout position (the pref_pos field: size in bytes
and abi alignment in bytes). -/
structure MemPos where
  size : Nat
  align : Nat
deriving DecidableEq

/-- The slice of rustc's TyLayout that the classifier consults.  The
homogeneousUnit field is the answer of the layout-oracle query
layout.homogeneous_aggregate(cx).unit(), whose implementation is outside
these sources. -/
structure TyLayout where
  prefPos : MemPos
  isAggregate : Bool
  homogeneousUnit : Option Reg
deriving DecidableEq

/-- The classification of one argument or return value (rustc PassMode,
restricted to the outcomes classify_ret and classify_arg produce). -/
inductive ArgMode where
  | direct
  | extended (bits : Nat)
  | cast (u : Uniform)
  | indirect
deriving DecidableEq

/-- rustc ArgAbi: a layout together with its current classification. -/
structure ArgAbi where
  layout : TyLayout
  mode : ArgMode
deriving DecidableEq

/-- ArgAbi::extend_integer_width_to: promote a small scalar (abstracted: we
only record that the non-aggregate path was taken with the given width). -/
def ArgAbi.extendIntegerWidthTo (a : ArgAbi) (bits : Nat) : ArgAbi :=
  { a with mode := ArgMode.extended bits }

/-- ArgAbi::cast_to. -/
def ArgAbi.castTo (a : ArgAbi) (u : Uniform) : ArgAbi :=
  { a with mode := ArgMode.cast u }

/-- ArgAbi::make_indirect. -/
def ArgAbi.makeIndirect (a : ArgAbi) : ArgAbi :=
  { a with mode := ArgMode.indirect }

/-- Modelled from the spec: the layout oracle's homogeneous-aggregate query
(TyLayout::homogeneous_aggregate, not among the sources) reports a unit only
when the aggregate decomposes into N copies of that unit, so the total size
is a multiple of the (positive) unit size. -/
def homogeneousOracleOk (l : TyLayout) : Prop :=
  ∀ u, l.homogeneousUnit = some u → 0 < u.size ∧ ∃ n, l.prefPos.size = n * u.size

/-- is_homogeneous_aggregate from arm.rs: take the layout oracle's unit,
reject when the total size exceeds four units (at most four uniquely
addressable members), then validate the unit kind; note the vector arm
tests the bits of the aggregate's total size.  checked_mul on u64 cannot
overflow on Nat, so the multiplication is plain. -/
def is_homogeneous_aggregate (arg : ArgAbi) : Option Uniform :=
  match arg.layout.homogeneousUnit with
  | none => none
  | some unit =>
    if arg.layout.prefPos.size > unit.size * 4 then none
    else
      if (match unit.kind with
          | RegKind.integer => false
          | RegKind.float => true
          | RegKind.vector =>
            bitsOfBytes arg.layout.prefPos.size == 64 ||
            bitsOfBytes arg.layout.prefPos.size == 128) then
        some { unit := unit, total := arg.layout.prefPos.size }
      else none

/-- classify_ret from arm.rs. -/
def classify_ret (ret : ArgAbi) (vfp : Bool) : ArgAbi :=
  if !ret.layout.isAggregate then
    ret.extendIntegerWidthTo 32
  else
    match (if vfp then is_homogeneous_aggregate ret else none) with
    | some uniform => ret.castTo uniform
    | none =>
      if bitsOfBytes ret.layout.prefPos.size ≤ 32 then
        ret.castTo
          { unit :=
              if bitsOfBytes ret.layout.prefPos.size ≤ 8 then Reg.i8
              else if bitsOfBytes ret.layout.prefPos.size ≤ 16 then Reg.i16
              else Reg.i32,
            total := ret.layout.prefPos.size }
      else
        ret.makeIndirect

/-- classify_arg from arm.rs. -/
def classify_arg (arg : ArgAbi) (vfp : Bool) : ArgAbi :=
  if !arg.layout.isAggregate then
    arg.extendIntegerWidthTo 32
  else
    match (if vfp then is_homogeneous_aggregate arg else none) with
    | some uniform => arg.castTo uniform
    | none =>
      arg.castTo
        { unit :=
            if arg.layout.prefPos.align ≤ 4 then Reg.i32 else Reg.i64,
          total := arg.layout.prefPos.size }

/-- An aggregate of five 32-bit floats: total 20 bytes, unit 4 bytes. -/
def fiveFloats : ArgAbi :=
  { layout :=
      { prefPos := { size := 20, align := 4 },
        isAggregate := true,
        homogeneousUnit := some { kind := RegKind.float, size := 4 } },
    mode := ArgMode.direct }

/-- An aggregate of four 32-bit floats: total 16 bytes, unit 4 bytes. -/
def fourFloats : ArgAbi :=
  { layout :=
      { prefPos := { size := 16, align := 4 },
        isAggregate := true,
        homogeneousUnit := some { kind := RegKind.float, size := 4 } },
    mode := ArgMode.direct }

/-- An aggregate of four 32-bit integers: total 16 bytes, unit 4 bytes. -/
def fourInts : ArgAbi :=
  { layout :=
      { prefPos := { size := 16, align := 4 },
        isAggregate := true,
        homogeneousUnit := some { kind := RegKind.integer, size := 4 } },
    mode := ArgMode.direct }

/-- A single 64-bit vector: total 8 bytes, unit 8 bytes. -/
def vec1x64 : ArgAbi :=
  { layout :=
      { prefPos := { size := 8, align := 8 },
        isAggregate := true,
        homogeneousUnit := some { kind := RegKind.vector, size := 8 } },
    mode := ArgMode.direct }

/-- An aggregate of two 32-bit vectors: total 8 bytes, unit 4 bytes. -/
def vec2x32 : ArgAbi :=
  { layout :=
      { prefPos := { size := 8, align := 4 },
        isAggregate := true,
        homogeneousUnit := some { kind := RegKind.vector, size := 4 } },
    mode := ArgMode.direct }

/-- A 4-byte non-homogeneous aggregate (32 bits). -/
def ret4 : ArgAbi :=
  { layout :=
      { prefPos := { size := 4, align := 4 },
        isAggregate := true,
        homogeneousUnit := none },
    mode := ArgMode.direct }

/-- A 5-byte non-homogeneous aggregate (40 bits). -/
def ret5 : ArgAbi :=
  { layout :=
      { prefPos := { size := 5, align := 1 },
        isAggregate := true,
        homogeneousUnit := none },
    mode := ArgMode.direct }

/-- An 8-byte, 8-aligned non-homogeneous aggregate. -/
def arg8 : ArgAbi :=
  { layout :=
      { prefPos := { size := 8, align := 8 },
        isAggregate := true,
        homogeneousUnit := none },
    mode := ArgMode.direct }

/-- A 4-byte, 4-aligned non-homogeneous aggregate. -/
def arg4a : ArgAbi :=
  { layout :=
      { prefPos := { size := 4, align := 4 },
        isAggregate := true,
        homogeneousUnit := none },
    mode := ArgMode.direct }

end Arm

namespace Vt

/-- A type, as the vtable code sees it: an identity plus whether it still
contains unresolved generic parameters (rustc Ty with needs_subst). -/
structure Ty where
  code : Nat
  needsSubst : Bool
deriving DecidableEq

/-- An erased trait reference (rustc PolyExistentialTraitRef), again with its
needs_subst flag. -/
structure TraitRef where
  code : Nat
  needsSubst : Bool
deriving DecidableEq

/-- needs_subst of an optional trait reference: None never needs subst. -/
def needsSubstOpt : Option TraitRef → Bool
  | none => false
  | some tr => tr.needsSubst

/-- A resolved function (rustc ty::Instance). -/
structure Instance where
  code : Nat
deriving DecidableEq

/-- One vtable-method entry: (DefId, SubstsRef). -/
structure MethodRef where
  defId : Nat
  substs : Nat
deriving DecidableEq

/-- What the layout oracle reports for a type: size and alignment in bytes
plus unsized-ness (layout.pref_pos.size.bytes(), .align.abi.bytes(),
layout.is_unsized()). -/
structure Layout where
  size : Nat
  align : Nat
  isUnsized : Bool
deriving DecidableEq

/-- The error kinds observable here.  tooGeneric and undefinedBehavior are
the interpreter's typed errors; assertFail models Rust panics (assert!,
unwrap, Scalar::from_uint's fit check); unsupported models force_bits on a
pointer value. -/
inductive InterpError where
  | tooGeneric
  | undefinedBehavior
  | assertFail
  | unsupported
deriving DecidableEq

/-- A pointer into the modeled memory: allocation id plus byte offset. -/
structure Pointer where
  allocId : Nat
  offset : Nat
deriving DecidableEq

/-- Pointer::offset — advance by a byte count (overflow cannot occur on Nat). -/
def Pointer.add (p : Pointer) (bytes : Nat) : Pointer :=
  { p with offset := p.offset + bytes }

/-- A pointer-sized scalar: a pointer or a raw unsigned integer. -/
inductive Scalar where
  | ptr (p : Pointer)
  | uint (v : Nat)
deriving DecidableEq

/-- The ambient compiler context: pointer width, the platform object-size
bound, and the oracles the vtable code calls into (region erasure, layout,
vtable_methods, drop and method resolution, and the declared first-parameter
pointee type of a drop instance). -/
structure Ctx where
  ptrSize : Nat
  ptrAlign : Nat
  objSizeBound : Nat
  eraseRegions : Ty × Option TraitRef → Ty × Option TraitRef
  layoutOf : Ty → Except InterpError Layout
  vtableMethods : Ty → TraitRef → List (Option MethodRef)
  resolveDropInPlace : Ty → Instance
  resolveForVtable : MethodRef → Option Instance
  dropParamTy : Instance → Option Ty

/-- Scalar::from_uint with its fit assertion: the value must fit in a
pointer-sized word. -/
def Scalar.fromUint (cx : Ctx) (v : Nat) : Except InterpError Scalar :=
  if v < 2 ^ (8 * cx.ptrSize) then .ok (.uint v) else .error .assertFail

/-- force_bits: a raw integer yields its bits; a pointer cannot be turned
into bits. -/
def forceBits : Scalar → Except InterpError Nat
  | .uint v => .ok v
  | .ptr _ => .error .unsupported

/-- ScalarMaybeUndef::not_undef. -/
def notUndef : Option Scalar → Except InterpError Scalar
  | none => .error .undefinedBehavior
  | some v => .ok v

/-- Whether a number is a valid (power-of-two) alignment, the check behind
Align::from_bytes(..).unwrap(). -/
def isPow2 (n : Nat) : Bool :=
  n != 0 && (n &&& (n - 1)) == 0

/-- Association-list lookup with decidable key equality. -/
def assocFind {α β : Type} [DecidableEq α] : List (α × β) → α → Option β
  | [], _ => none
  | (k, v) :: rest, k2 => if k = k2 then some v else assocFind rest k2

/-- Association-list update of an existing key (no-op when absent). -/
def assocSet {α β : Type} [DecidableEq α] : List (α × β) → α → β → List (α × β)
  | [], _, _ => []
  | (k, v) :: rest, k2, v2 =>
    if k = k2 then (k2, v2) :: rest else (k, v) :: assocSet rest k2 v2

/-- The only allocation kind this code creates (MemoryKind::Vtable). -/
inductive MemoryKind where
  | vtableKind
deriving DecidableEq

/-- One data allocation: pointer-sized words (none is undefined/empty), a
mutability flag, and the allocation kind.  All vtable accesses are
pointer-sized, so contents are stored word by word. -/
structure Allocation where
  words : List (Option Scalar)
  mutableFlag : Bool
  kind : MemoryKind
deriving DecidableEq

/-- The interpreter memory: data allocations, function allocations (each a
resolved Instance), and the next fresh allocation id. -/
structure Memory where
  allocs : List (Nat × Allocation)
  fnAllocs : List (Nat × Instance)
  nextId : Nat
deriving DecidableEq

/-- Memory::allocate for a byte count, kind Vtable: a fresh, mutable,
fully-undefined allocation of bytes/ptrSize pointer-sized words. -/
def Memory.allocate (m : Memory) (cx : Ctx) (bytes : Nat) : Pointer × Memory :=
  (⟨m.nextId, 0⟩,
   { allocs := (m.nextId,
       { words := List.replicate (bytes / cx.ptrSize) none,
         mutableFlag := true,
         kind := MemoryKind.vtableKind }) :: m.allocs,
     fnAllocs := m.fnAllocs,
     nextId := m.nextId + 1 })

/-- Memory::create_fn_alloc: a fresh function allocation for an Instance. -/
def Memory.createFnAlloc (m : Memory) (inst : Instance) : Pointer × Memory :=
  (⟨m.nextId, 0⟩,
   { allocs := m.allocs,
     fnAllocs := (m.nextId, inst) :: m.fnAllocs,
     nextId := m.nextId + 1 })

/-- get_raw_mut followed by write_ptr_sized: the allocation must exist and
be mutable, and the word index must be in bounds. -/
def Memory.writePtrSized (m : Memory) (cx : Ctx) (p : Pointer) (v : Scalar) :
    Except InterpError Memory :=
  match assocFind m.allocs p.allocId with
  | none => .error .undefinedBehavior
  | some a =>
    if a.mutableFlag then
      if p.offset / cx.ptrSize < a.words.length then
        .ok { m with allocs :=
                (assocSet m.allocs p.allocId
                  { a with words := a.words.set (p.offset / cx.ptrSize) (some v) }) }
      else .error .undefinedBehavior
    else .error .undefinedBehavior

/-- Memory::get_raw. -/
def Memory.getRaw (m : Memory) (aid : Nat) : Except InterpError Allocation :=
  match assocFind m.allocs aid with
  | some a => .ok a
  | none => .error .undefinedBehavior

/-- Allocation read of one pointer-sized word (read_ptr_sized). -/
def Allocation.readWord (a : Allocation) (cx : Ctx) (off : Nat) :
    Except InterpError (Option Scalar) :=
  if off / cx.ptrSize < a.words.length then
    .ok (a.words.getD (off / cx.ptrSize) none)
  else .error .undefinedBehavior

/-- Memory::get_fn followed by FnVal::as_instance: the scalar must be a
pointer with offset zero into a function allocation. -/
def Memory.getFn (m : Memory) : Scalar → Except InterpError Instance
  | .uint _ => .error .undefinedBehavior
  | .ptr p =>
    if p.offset = 0 then
      match assocFind m.fnAllocs p.allocId with
      | some inst => .ok inst
      | none => .error .undefinedBehavior
    else .error .undefinedBehavior

/-- Memory::mark_immutable. -/
def Memory.markImmutable (m : Memory) (aid : Nat) : Except InterpError Memory :=
  match assocFind m.allocs aid with
  | none => .error .undefinedBehavior
  | some a =>
    .ok { m with allocs := assocSet m.allocs aid { a with mutableFlag := false } }

/-- Memory::check_ptr_access: a zero-sized access may answer None; otherwise
the scalar must be a pointer into a live allocation with an aligned offset
and an in-bounds extent (the allocation base itself is aligned, so the
offset's alignment suffices). -/
def checkPtrAccess (cx : Ctx) (m : Memory) (v : Scalar)
    (sizeBytes alignBytes : Nat) : Except InterpError (Option Pointer) :=
  if sizeBytes = 0 then .ok none
  else
    match v with
    | .uint _ => .error .undefinedBehavior
    | .ptr p =>
      match assocFind m.allocs p.allocId with
      | none => .error .undefinedBehavior
      | some a =>
        if p.offset % alignBytes = 0 ∧
            p.offset + sizeBytes ≤ a.words.length * cx.ptrSize then
          .ok (some p)
        else .error .undefinedBehavior

/-- The per-run evaluation state: the memory and the vtable cache keyed by
the normalized (type, trait) pair. -/
structure EvalState where
  mem : Memory
  vtables : List ((Ty × Option TraitRef) × Pointer)
deriving DecidableEq

/-- The ordered method list for the vtable: tcx.vtable_methods of the trait
reference instantiated at the self type, or empty without a trait. -/
def methodsOf (cx : Ctx) (ty : Ty) : Option TraitRef → List (Option MethodRef)
  | some tr => cx.vtableMethods ty tr
  | none => []

/-- The method-slot loop of get_vtable: for each present entry resolve for
vtable (TooGeneric when resolution fails), create its function allocation
and write it to word 3 + i; absent entries leave their slot untouched.  An
error carries the memory state at the failure point. -/
def writeMethods (cx : Ctx) (vt : Pointer) :
    List (Option MethodRef) → Nat → Memory → Except (InterpError × Memory) Memory
  | [], _, m => .ok m
  | none :: rest, i, m => writeMethods cx vt rest (i + 1) m
  | some mref :: rest, i, m =>
    match cx.resolveForVtable mref with
    | none => .error (.tooGeneric, m)
    | some inst =>
      match m.createFnAlloc inst with
      | (fnPtr, m1) =>
        match m1.writePtrSized cx (vt.add (cx.ptrSize * (3 + i))) (.ptr fnPtr) with
        | .error e => .error (e, m1)
        | .ok m2 => writeMethods cx vt rest (i + 1) m2

/-- Steps 4-8 of get_vtable on a cache miss: allocate 3 + methods.len()
pointer-sized words, resolve and write the drop instance to word 0, write
size to word 1 and alignment to word 2 (as pointer-width unsigned
integers), fill the method slots, then mark the allocation immutable. -/
def buildAlloc (cx : Ctx) (ty : Ty) (methods : List (Option MethodRef))
    (layout : Layout) (m0 : Memory) :
    Except (InterpError × Memory) (Pointer × Memory) :=
  match m0.allocate cx (cx.ptrSize * (3 + methods.length)) with
  | (vtable, m1) =>
    match m1.createFnAlloc (cx.resolveDropInPlace ty) with
    | (dropPtr, m2) =>
      match m2.writePtrSized cx vtable (.ptr dropPtr) with
      | .error e => .error (e, m2)
      | .ok m3 =>
        match Scalar.fromUint cx layout.size with
        | .error e => .error (e, m3)
        | .ok sizeScalar =>
          match m3.writePtrSized cx (vtable.add cx.ptrSize) sizeScalar with
          | .error e => .error (e, m3)
          | .ok m4 =>
            match Scalar.fromUint cx layout.align with
            | .error e => .error (e, m4)
            | .ok alignScalar =>
              match m4.writePtrSized cx (vtable.add (cx.ptrSize * 2)) alignScalar with
              | .error e => .error (e, m4)
              | .ok m5 =>
                match writeMethods cx vtable methods 0 m5 with
                | .error em => .error em
                | .ok m6 =>
                  match m6.markImmutable vtable.allocId with
                  | .error e => .error (e, m6)
                  | .ok m7 => .ok (vtable, m7)

/-- get_vtable from traits.rs: erase regions, bail out with TooGeneric on a
non-monomorphic input, answer from the cache on a hit, otherwise build the
table, assert the cache had no entry, insert it and return its address.
The state is threaded through even on errors. -/
def get_vtable (cx : Ctx) (s : EvalState) (ty0 : Ty)
    (traitRef0 : Option TraitRef) : Except InterpError Pointer × EvalState :=
  match cx.eraseRegions (ty0, traitRef0) with
  | (ty, polyTraitRef) =>
    if ty.needsSubst || needsSubstOpt polyTraitRef then
      (.error .tooGeneric, s)
    else
      match assocFind s.vtables (ty, polyTraitRef) with
      | some vtable => (.ok vtable, s)
      | none =>
        match cx.layoutOf ty with
        | .error e => (.error e, s)
        | .ok layout =>
          if layout.isUnsized then (.error .assertFail, s)
          else
            match buildAlloc cx ty (methodsOf cx ty polyTraitRef) layout s.mem with
            | .error (e, m') => (.error e, { s with mem := m' })
            | .ok (vtable, m') =>
              match assocFind s.vtables (ty, polyTraitRef) with
              | some _ => (.error .assertFail, { s with mem := m' })
              | none =>
                (.ok vtable,
                 { mem := m',
                   vtables := ((ty, polyTraitRef), vtable) :: s.vtables })

/-- read_drop_type_from_vtable: check one pointer-sized, pointer-aligned
slot, read word 0, require a defined function pointer resolving to an
Instance, and recover the type from the drop function's first parameter
(*mut T), modeled by the dropParamTy oracle (inputs()[0].builtin_deref
unwraps, hence assertFail when it is no pointer). -/
def read_drop_type_from_vtable (cx : Ctx) (s : EvalState) (vtable : Scalar) :
    Except InterpError (Instance × Ty) :=
  match checkPtrAccess cx s.mem vtable cx.ptrSize cx.ptrAlign with
  | .error e => .error e
  | .ok none => .error .assertFail
  | .ok (some vt) =>
    match s.mem.getRaw vt.allocId with
    | .error e => .error e
    | .ok alloc =>
      match alloc.readWord cx vt.offset with
      | .error e => .error e
      | .ok w =>
        match notUndef w with
        | .error e => .error e
        | .ok dropFn =>
          match s.mem.getFn dropFn with
          | .error e => .error e
          | .ok dropInstance =>
            match cx.dropParamTy dropInstance with
            | none => .error .assertFail
            | some ty => .ok (dropInstance, ty)

/-- read_size_and_align_from_vtable: check three pointer-sized slots, read
words 1 and 2 as unsigned integers, report undefined behavior when the size
reaches the platform object-size bound, and unwrap the alignment
(power-of-two check of Align::from_bytes). -/
def read_size_and_align_from_vtable (cx : Ctx) (s : EvalState)
    (vtable : Scalar) : Except InterpError (Nat × Nat) :=
  match checkPtrAccess cx s.mem vtable (3 * cx.ptrSize) cx.ptrAlign with
  | .error e => .error e
  | .ok none => .error .assertFail
  | .ok (some vt) =>
    match s.mem.getRaw vt.allocId with
    | .error e => .error e
    | .ok alloc =>
      match alloc.readWord cx (vt.add cx.ptrSize).offset with
      | .error e => .error e
      | .ok w1 =>
        match notUndef w1 with
        | .error e => .error e
        | .ok sv =>
          match forceBits sv with
          | .error e => .error e
          | .ok sizeVal =>
            match alloc.readWord cx (vt.add (cx.ptrSize * 2)).offset with
            | .error e => .error e
            | .ok w2 =>
              match notUndef w2 with
              | .error e => .error e
              | .ok av =>
                match forceBits av with
                | .error e => .error e
                | .ok alignVal =>
                  if cx.objSizeBound ≤ sizeVal then .error .undefinedBehavior
                  else if isPow2 alignVal then .ok (sizeVal, alignVal)
                  else .error .assertFail

/-- The memory state of buildAlloc just before the method loop: a fresh
table allocation whose words 0, 1 and 2 hold the drop-function pointer, the
size and the alignment, together with the drop function allocation. -/
def buildMid (cx : Ctx) (ty : Ty) (methods : List (Option MethodRef))
    (layout : Layout) (m0 : Memory) : Memory :=
  { allocs := (m0.nextId,
      { words := (((List.replicate (3 + methods.length)
              (none : Option Scalar)).set 0
              (some (.ptr ⟨m0.nextId + 1, 0⟩))).set 1
              (some (.uint layout.size))).set 2
              (some (.uint layout.align)),
        mutableFlag := true,
        kind := MemoryKind.vtableKind }) :: m0.allocs,
    fnAllocs := (m0.nextId + 1, cx.resolveDropInPlace ty) :: m0.fnAllocs,
    nextId := m0.nextId + 2 }

/-- A concrete monomorphic type for the witnesses. -/
def wTy : Ty := { code := 1, needsSubst := false }

/-- A concrete type that still needs substitution, for the witnesses. -/
def wGenericTy : Ty := { code := 9, needsSubst := true }

/-- A concrete erased trait reference for the witnesses. -/
def wTrait : TraitRef := { code := 5, needsSubst := false }

/-- The empty evaluation state. -/
def wS0 : EvalState :=
  { mem := { allocs := [], fnAllocs := [], nextId := 0 }, vtables := [] }

/-- A concrete context for the witnesses: 8-byte pointers, identity region
erasure, one 16-byte 8-aligned sized layout, a two-slot method list (first
absent, second present), drop instance 100 whose first parameter derefs to
wTy, and method instances resolving to instance 200. -/
def wCtx : Ctx :=
  { ptrSize := 8, ptrAlign := 8, objSizeBound := 4096,
    eraseRegions := fun p => p,
    layoutOf := fun _ => .ok { size := 16, align := 8, isUnsized := false },
    vtableMethods := fun _ _ => [none, some { defId := 7, substs := 0 }],
    resolveDropInPlace := fun _ => { code := 100 },
    resolveForVtable := fun _ => some { code := 200 },
    dropParamTy := fun _ => some { code := 1, needsSubst := false } }

/-- A variant of wCtx whose present method entry fails to resolve. -/
def wCtxBad : Ctx :=
  { wCtx with resolveForVtable := fun _ => none }

/-- The state after one build of (wTy, some wTrait) from the empty state. -/
def wS1 : EvalState := (get_vtable wCtx wS0 wTy (some wTrait)).2

/-- A state holding a hand-written table whose stored size field (5000)
reaches the object-size bound of wCtx (4096). -/
def wBadTableState : EvalState :=
  { mem :=
      { allocs := [(0,
          { words := [none, some (.uint 5000), some (.uint 8)],
            mutableFlag := false,
            kind := MemoryKind.vtableKind })],
        fnAllocs := [],
        nextId := 1 },
    vtables := [] }

/-- A state holding a hand-written table with a small stored size (16). -/
def wGoodTableState : EvalState :=
  { mem :=
      { allocs := [(0,
          { words := [none, some (.uint 16), some (.uint 8)],
            mutableFlag := false,
            kind := MemoryKind.vtableKind })],
        fnAllocs := [],
        nextId := 1 },
    vtables := [] }

end Vt

namespace Arm

/-- C5: is_homogeneous_aggregate classifies homogeneous only when the
aggregate's total size is at most four times the unit size and (by the layout
oracle's contract) an exact multiple of it; in particular an aggregate of five
32-bit floats (20 bytes, unit 4 bytes) is never classified homogeneous. -/
theorem is_homogeneous_aggregate_arity_bound :
    (∀ (arg : ArgAbi) (u : Uniform), homogeneousOracleOk arg.layout →
      is_homogeneous_aggregate arg = some u →
        arg.layout.prefPos.size ≤ 4 * u.unit.size ∧
        u.unit.size ∣ arg.layout.prefPos.size) ∧
    is_homogeneous_aggregate fiveFloats = none := by
  constructor
  · intro arg u hor hsome
    unfold is_homogeneous_aggregate at hsome
    split at hsome
    · exact absurd hsome (by simp)
    · next unit hu =>
      split at hsome
      · exact absurd hsome (by simp)
      · next hgt =>
        split at hsome
        · obtain ⟨hpos, n, hn⟩ := hor unit hu
          cases hsome
          constructor
          · show arg.layout.prefPos.size ≤ 4 * unit.size
            omega
          · show unit.size ∣ arg.layout.prefPos.size
            exact ⟨n, by rw [hn, Nat.mul_comm]⟩
        · exact absurd hsome (by simp)
  · decide

/-- Witness for C5: four 32-bit floats (16 bytes, unit 4 bytes) satisfy both
the arity bound and the divisibility conclusion. -/
theorem is_homogeneous_aggregate_arity_bound_witness :
    (16 : Nat) ≤ 4 * 4 ∧ (4 : Nat) ∣ 16 :=
  is_homogeneous_aggregate_arity_bound.1 fourFloats
    { unit := { kind := RegKind.float, size := 4 }, total := 16 }
    (by
      intro u hu
      have h : u = { kind := RegKind.float, size := 4 } := by
        simpa [fourFloats] using hu.symm
      subst h
      exact ⟨by decide, 4, by decide⟩)
    (by decide)

/-- C6 counterexample: the unit of vec2x32 is a 32-bit vector, yet
is_homogeneous_aggregate classifies it homogeneous: the code's vector arm
tests the bits of the aggregate's total size (64 here), not of the unit.
The oracle contract holds at this input (8 = 2 * 4). -/
theorem is_homogeneous_aggregate_vector_unit_total :
    is_homogeneous_aggregate vec2x32 =
      some { unit := { kind := RegKind.vector, size := 4 }, total := 8 } ∧
    bitsOfBytes 4 ≠ 64 ∧ bitsOfBytes 4 ≠ 128 ∧
    homogeneousOracleOk vec2x32.layout := by
  refine ⟨by decide, by decide, by decide, ?_⟩
  intro u hu
  have h : u = { kind := RegKind.vector, size := 4 } := by
    simpa [vec2x32] using hu.symm
  subst h
  exact ⟨by decide, 2, by decide⟩

/-- C6 (amended): integer units never classify homogeneous; float units
always do under the arity bound; vector units classify homogeneous, under
the arity bound, exactly when the aggregate's total size is 64 or 128 bits. -/
theorem is_homogeneous_aggregate_unit_kinds :
    (∀ (arg : ArgAbi) (unit : Reg), arg.layout.homogeneousUnit = some unit →
      unit.kind = RegKind.integer → is_homogeneous_aggregate arg = none) ∧
    (∀ (arg : ArgAbi) (unit : Reg), arg.layout.homogeneousUnit = some unit →
      unit.kind = RegKind.float → arg.layout.prefPos.size ≤ unit.size * 4 →
      is_homogeneous_aggregate arg =
        some { unit := unit, total := arg.layout.prefPos.size }) ∧
    (∀ (arg : ArgAbi) (unit : Reg), arg.layout.homogeneousUnit = some unit →
      unit.kind = RegKind.vector → arg.layout.prefPos.size ≤ unit.size * 4 →
      (is_homogeneous_aggregate arg =
          some { unit := unit, total := arg.layout.prefPos.size } ↔
        (bitsOfBytes arg.layout.prefPos.size = 64 ∨
         bitsOfBytes arg.layout.prefPos.size = 128))) := by
  refine ⟨?_, ?_, ?_⟩
  · intro arg unit hu hk
    have hle : arg.layout.prefPos.size > unit.size * 4 ∨
        ¬ arg.layout.prefPos.size > unit.size * 4 := by omega
    rcases hle with h | h <;> simp [is_homogeneous_aggregate, hu, hk, h]
  · intro arg unit hu hk h4
    have h : ¬ arg.layout.prefPos.size > unit.size * 4 := by omega
    simp [is_homogeneous_aggregate, hu, hk, h]
  · intro arg unit hu hk h4
    have h : ¬ arg.layout.prefPos.size > unit.size * 4 := by omega
    by_cases h64 : bitsOfBytes arg.layout.prefPos.size = 64
    · simp [is_homogeneous_aggregate, hu, hk, h, h64]
    · by_cases h128 : bitsOfBytes arg.layout.prefPos.size = 128
      · simp [is_homogeneous_aggregate, hu, hk, h, h64, h128]
      · simp [is_homogeneous_aggregate, hu, hk, h, h64, h128]

/-- Witness for the amended C6: four 32-bit integers classify to none, four
32-bit floats to a homogeneous unit, and a single 64-bit vector classifies
homogeneous since its total is 64 bits. -/
theorem is_homogeneous_aggregate_unit_kinds_witness :
    is_homogeneous_aggregate fourInts = none ∧
    is_homogeneous_aggregate fourFloats =
      some { unit := { kind := RegKind.float, size := 4 }, total := 16 } ∧
    (is_homogeneous_aggregate vec1x64 =
        some { unit := { kind := RegKind.vector, size := 8 }, total := 8 } ↔
      (bitsOfBytes 8 = 64 ∨ bitsOfBytes 8 = 128)) :=
  ⟨is_homogeneous_aggregate_unit_kinds.1 fourInts
      { kind := RegKind.integer, size := 4 } rfl rfl,
   is_homogeneous_aggregate_unit_kinds.2.1 fourFloats
      { kind := RegKind.float, size := 4 } rfl rfl (by decide),
   is_homogeneous_aggregate_unit_kinds.2.2 vec1x64
      { kind := RegKind.vector, size := 8 } rfl rfl (by decide)⟩

/-- C7: for an aggregate return value with no homogeneous match, classify_ret
casts to a single integer unit of the smallest of 8, 16 or 32 bits covering
the value when the total is at most 32 bits (so exactly 32 bits yields the
32-bit unit), and makes the value indirect when the total exceeds 32 bits. -/
theorem classify_ret_boundary
    (ret : ArgAbi) (vfp : Bool)
    (hagg : ret.layout.isAggregate = true)
    (hnh : vfp = false ∨ is_homogeneous_aggregate ret = none) :
    (bitsOfBytes ret.layout.prefPos.size ≤ 32 →
      classify_ret ret vfp = ret.castTo
        { unit :=
            if bitsOfBytes ret.layout.prefPos.size ≤ 8 then Reg.i8
            else if bitsOfBytes ret.layout.prefPos.size ≤ 16 then Reg.i16
            else Reg.i32,
          total := ret.layout.prefPos.size }) ∧
    (32 < bitsOfBytes ret.layout.prefPos.size →
      classify_ret ret vfp = ret.makeIndirect) := by
  have hnone : (if vfp then is_homogeneous_aggregate ret else none) = none := by
    rcases hnh with h | h <;> simp [h]
  constructor
  · intro hb
    simp [classify_ret, hagg, hnone, hb]
  · intro hb
    have h : ¬ bitsOfBytes ret.layout.prefPos.size ≤ 32 := by omega
    simp [classify_ret, hagg, hnone, h]

/-- Witness for C7: a 4-byte (exactly 32 bits) non-homogeneous aggregate
casts to the 32-bit integer unit; a 5-byte one becomes indirect. -/
theorem classify_ret_boundary_witness :
    classify_ret ret4 true = ret4.castTo { unit := Reg.i32, total := 4 } ∧
    classify_ret ret5 true = ret5.makeIndirect :=
  ⟨(classify_ret_boundary ret4 true rfl (Or.inr rfl)).1 (by decide),
   (classify_ret_boundary ret5 true rfl (Or.inr rfl)).2 (by decide)⟩

/-- C8: for an aggregate argument with no homogeneous match, classify_arg
casts to a repeated integer unit chosen from the alignment alone (32-bit when
the alignment is at most 4 bytes, 64-bit otherwise) with the original total
size, and never classifies the argument indirect. -/
theorem classify_arg_alignment_rule
    (arg : ArgAbi) (vfp : Bool)
    (hagg : arg.layout.isAggregate = true)
    (hnh : vfp = false ∨ is_homogeneous_aggregate arg = none) :
    classify_arg arg vfp = arg.castTo
      { unit := if arg.layout.prefPos.align ≤ 4 then Reg.i32 else Reg.i64,
        total := arg.layout.prefPos.size } ∧
    (classify_arg arg vfp).mode ≠ ArgMode.indirect := by
  have hnone : (if vfp then is_homogeneous_aggregate arg else none) = none := by
    rcases hnh with h | h <;> simp [h]
  have hmain : classify_arg arg vfp = arg.castTo
      { unit := if arg.layout.prefPos.align ≤ 4 then Reg.i32 else Reg.i64,
        total := arg.layout.prefPos.size } := by
    simp [classify_arg, hagg, hnone]
  refine ⟨hmain, ?_⟩
  rw [hmain]
  simp [ArgAbi.castTo]

/-- Witness for C8: an 8-aligned non-homogeneous aggregate casts to the
64-bit integer unit, a 4-aligned one to the 32-bit unit. -/
theorem classify_arg_alignment_rule_witness :
    classify_arg arg8 true = arg8.castTo { unit := Reg.i64, total := 8 } ∧
    classify_arg arg4a true = arg4a.castTo { unit := Reg.i32, total := 4 } :=
  ⟨(classify_arg_alignment_rule arg8 true rfl (Or.inr rfl)).1,
   (classify_arg_alignment_rule arg4a true rfl (Or.inr rfl)).1⟩

end Arm

namespace Vt

theorem assocFind_cons {α β : Type} [DecidableEq α] (k k2 : α) (v : β)
    (rest : List (α × β)) :
    assocFind ((k, v) :: rest) k2 = if k = k2 then some v else assocFind rest k2 :=
  rfl

theorem assocFind_assocSet_same {α β : Type} [DecidableEq α] :
    ∀ (l : List (α × β)) (k : α) (v b : β), assocFind l k = some b →
      assocFind (assocSet l k v) k = some v
  | [], k, v, b, h => by simp [assocFind] at h
  | (k1, v1) :: rest, k, v, b, h => by
    by_cases hk : k1 = k
    · subst hk
      simp [assocSet, assocFind]
    · simp only [assocFind, if_neg hk] at h
      simp only [assocSet, if_neg hk, assocFind, if_neg hk]
      exact assocFind_assocSet_same rest k v b h

theorem assocFind_assocSet_other {α β : Type} [DecidableEq α] :
    ∀ (l : List (α × β)) (k k' : α) (v : β), k ≠ k' →
      assocFind (assocSet l k v) k' = assocFind l k'
  | [], _, _, _, _ => rfl
  | (k1, v1) :: rest, k, k', v, h => by
    by_cases hk : k1 = k
    · subst hk
      simp [assocSet, assocFind, h]
    · simp only [assocSet, if_neg hk, assocFind]
      by_cases hk' : k1 = k'
      · simp [hk']
      · simp only [if_neg hk']
        exact assocFind_assocSet_other rest k k' v h

theorem getD_set_same {α : Type} :
    ∀ (l : List α) (n : Nat) (v d : α), n < l.length →
      (l.set n v).getD n d = v
  | [], _, _, _, h => absurd h (by simp)
  | _ :: _, 0, _, _, _ => rfl
  | _ :: l, n + 1, v, d, h => getD_set_same l n v d (by simpa using h)

theorem getD_set_other {α : Type} :
    ∀ (l : List α) (n k : Nat) (v d : α), n ≠ k →
      (l.set n v).getD k d = l.getD k d
  | [], _, _, _, _, _ => rfl
  | _ :: _, 0, 0, _, _, h => absurd rfl h
  | _ :: _, 0, _ + 1, _, _, _ => rfl
  | _ :: _, _ + 1, 0, _, _, _ => rfl
  | _ :: l, n + 1, k + 1, v, d, h =>
    getD_set_other l n k v d (fun hh => h (by rw [hh]))

theorem getD_replicate_self {α : Type} :
    ∀ (n i : Nat) (d : α), (List.replicate n d).getD i d = d
  | 0, _, _ => rfl
  | _ + 1, 0, _ => rfl
  | n + 1, i + 1, d => getD_replicate_self n i d

theorem writePtrSized_eq (m : Memory) (cx : Ctx) (p : Pointer) (v : Scalar)
    (a : Allocation) (ha : assocFind m.allocs p.allocId = some a)
    (hm : a.mutableFlag = true) (hb : p.offset / cx.ptrSize < a.words.length) :
    m.writePtrSized cx p v =
      .ok { m with allocs :=
        (assocSet m.allocs p.allocId
          { a with words := a.words.set (p.offset / cx.ptrSize) (some v) }) } := by
  unfold Memory.writePtrSized
  rw [ha]
  simp [hm, hb]

theorem writePtrSized_ok_inv (m m' : Memory) (cx : Ctx) (p : Pointer)
    (v : Scalar) (h : m.writePtrSized cx p v = .ok m') :
    ∃ a, assocFind m.allocs p.allocId = some a ∧ a.mutableFlag = true ∧
      p.offset / cx.ptrSize < a.words.length ∧
      m' = { m with allocs :=
        (assocSet m.allocs p.allocId
          { a with words := a.words.set (p.offset / cx.ptrSize) (some v) }) } := by
  unfold Memory.writePtrSized at h
  split at h
  · exact Except.noConfusion h
  · next a ha =>
    split at h
    · next hm =>
      split at h
      · next hb =>
        refine ⟨a, ha, hm, hb, ?_⟩
        exact ((Except.ok.injEq _ _).mp h).symm
      · exact Except.noConfusion h
    · exact Except.noConfusion h

theorem markImmutable_eq (m : Memory) (aid : Nat) (a : Allocation)
    (ha : assocFind m.allocs aid = some a) :
    m.markImmutable aid =
      .ok { m with allocs := (assocSet m.allocs aid { a with mutableFlag := false }) } := by
  unfold Memory.markImmutable
  rw [ha]

theorem markImmutable_ok_inv (m m' : Memory) (aid : Nat)
    (h : m.markImmutable aid = .ok m') :
    ∃ a, assocFind m.allocs aid = some a ∧
      m' = { m with allocs := (assocSet m.allocs aid { a with mutableFlag := false }) } := by
  unfold Memory.markImmutable at h
  split at h
  · exact Except.noConfusion h
  · next a ha =>
    refine ⟨a, ha, ?_⟩
    exact ((Except.ok.injEq _ _).mp h).symm


theorem writeMethods_ok_inv (cx : Ctx) (vt : Pointer)
    (hps : 0 < cx.ptrSize) (hoff : vt.offset = 0) :
    ∀ (ms : List (Option MethodRef)) (i : Nat) (m m' : Memory),
    writeMethods cx vt ms i m = .ok m' →
    (∀ aid, aid ≠ vt.allocId → assocFind m'.allocs aid = assocFind m.allocs aid) ∧
    (∀ k, k < m.nextId → assocFind m'.fnAllocs k = assocFind m.fnAllocs k) ∧
    m.nextId ≤ m'.nextId ∧
    (∀ a, assocFind m.allocs vt.allocId = some a →
      ∃ a', assocFind m'.allocs vt.allocId = some a' ∧
        a'.mutableFlag = a.mutableFlag ∧
        a'.words.length = a.words.length ∧
        (∀ idx, idx < 3 + i → a'.words.getD idx none = a.words.getD idx none) ∧
        (∀ j, j < ms.length → ms.getD j none = none →
          a'.words.getD (3 + i + j) none = a.words.getD (3 + i + j) none)) := by
  intro ms
  induction ms with
  | nil =>
    intro i m m' h
    simp only [writeMethods] at h
    injection h with h
    subst h
    exact ⟨fun _ _ => rfl, fun _ _ => rfl, Nat.le_refl _,
      fun a ha => ⟨a, ha, rfl, rfl, fun _ _ => rfl, fun _ _ _ => rfl⟩⟩
  | cons head rest ih =>
    intro i m m' h
    cases head with
    | none =>
      simp only [writeMethods] at h
      obtain ⟨h1, h2, h3, h4⟩ := ih (i + 1) m m' h
      refine ⟨h1, h2, h3, fun a ha => ?_⟩
      obtain ⟨a', hfind, hmut, hlen, hidx, hslot⟩ := h4 a ha
      refine ⟨a', hfind, hmut, hlen, fun idx hlt => hidx idx (by omega), ?_⟩
      intro j hj hnone
      cases j with
      | zero => exact hidx (3 + i) (by omega)
      | succ jj =>
        have hj' : jj < rest.length := by
          simp only [List.length_cons] at hj
          omega
        have harith : 3 + i + (jj + 1) = 3 + (i + 1) + jj := by omega
        rw [harith]
        exact hslot jj hj' hnone
    | some mref =>
      simp only [writeMethods] at h
      split at h
      · exact Except.noConfusion h
      · next inst hres =>
        simp only [Memory.createFnAlloc] at h
        split at h
        · exact Except.noConfusion h
        · next m2 hw =>
          obtain ⟨a0, ha0, hmut0, hb0, hm2⟩ := writePtrSized_ok_inv _ _ _ _ _ hw
          have hidx0 : (vt.add (cx.ptrSize * (3 + i))).offset / cx.ptrSize = 3 + i := by
            simp only [Pointer.add, hoff, Nat.zero_add]
            exact Nat.mul_div_cancel_left (3 + i) hps
          rw [hidx0] at hm2
          have ha0' : assocFind m.allocs vt.allocId = some a0 := ha0
          have hm2allocs : m2.allocs = assocSet m.allocs vt.allocId
              { a0 with words := a0.words.set (3 + i) (some (.ptr ⟨m.nextId, 0⟩)) } := by
            rw [hm2]
            rfl
          have hm2fn : m2.fnAllocs = (m.nextId, inst) :: m.fnAllocs := by
            rw [hm2]
          have hm2next : m2.nextId = m.nextId + 1 := by
            rw [hm2]
          obtain ⟨h1, h2, h3, h4⟩ := ih (i + 1) m2 m' h
          refine ⟨?_, ?_, ?_, ?_⟩
          · intro aid hne
            rw [h1 aid hne, hm2allocs]
            exact assocFind_assocSet_other _ _ _ _ (fun hh => hne hh.symm)
          · intro k hk
            rw [h2 k (by omega), hm2fn, assocFind_cons, if_neg (by omega)]
          · rw [hm2next] at h3
            omega
          · intro a ha
            have ha0e : a0 = a := by
              have hh := ha0'.symm.trans ha
              exact (Option.some.injEq _ _).mp hh
            subst ha0e
            have hfindW := assocFind_assocSet_same m.allocs vt.allocId
              { a0 with words := a0.words.set (3 + i) (some (.ptr ⟨m.nextId, 0⟩)) } a0 ha
            rw [← hm2allocs] at hfindW
            obtain ⟨a', hfind', hmut', hlen', hidx', hslot'⟩ := h4 _ hfindW
            refine ⟨a', hfind', by simpa using hmut', ?_, ?_, ?_⟩
            · rw [hlen']
              simp [List.length_set]
            · intro idx hlt
              rw [hidx' idx (by omega)]
              exact getD_set_other _ _ _ _ _ (by omega)
            · intro j hj hnone
              cases j with
              | zero => exact Option.noConfusion hnone
              | succ jj =>
                have hj' : jj < rest.length := by
                  simp only [List.length_cons] at hj
                  omega
                have harith : 3 + i + (jj + 1) = 3 + (i + 1) + jj := by omega
                rw [harith]
                rw [hslot' jj hj' hnone]
                exact getD_set_other _ _ _ _ _ (by omega)

theorem writeMethods_runs (cx : Ctx) (vt : Pointer)
    (hps : 0 < cx.ptrSize) (hoff : vt.offset = 0) :
    ∀ (ms : List (Option MethodRef)) (i : Nat) (m : Memory) (a : Allocation),
    assocFind m.allocs vt.allocId = some a →
    a.mutableFlag = true →
    3 + i + ms.length ≤ a.words.length →
    ((∀ mref, some mref ∈ ms → (cx.resolveForVtable mref).isSome = true) →
      ∃ m', writeMethods cx vt ms i m = .ok m') ∧
    ((∃ mref, some mref ∈ ms ∧ cx.resolveForVtable mref = none) →
      ∃ m2, writeMethods cx vt ms i m = .error (.tooGeneric, m2)) := by
  intro ms
  induction ms with
  | nil =>
    intro i m a ha hmut hb
    constructor
    · intro _
      exact ⟨m, rfl⟩
    · rintro ⟨mref, hmem, _⟩
      exact absurd hmem (List.not_mem_nil _)
  | cons head rest ih =>
    intro i m a ha hmut hb
    cases head with
    | none =>
      have hb' : 3 + (i + 1) + rest.length ≤ a.words.length := by
        simp only [List.length_cons] at hb
        omega
      obtain ⟨hok, hfail⟩ := ih (i + 1) m a ha hmut hb'
      constructor
      · intro hall
        obtain ⟨m', hm'⟩ := hok (fun mref hmem => hall mref (List.mem_cons_of_mem _ hmem))
        exact ⟨m', by simpa [writeMethods] using hm'⟩
      · rintro ⟨mref, hmem, hres⟩
        rcases List.mem_cons.mp hmem with heq | hmem'
        · exact Option.noConfusion heq
        · obtain ⟨m2, hm2⟩ := hfail ⟨mref, hmem', hres⟩
          exact ⟨m2, by simpa [writeMethods] using hm2⟩
    | some mref0 =>
      have hlen1 : 3 + i < a.words.length := by
        simp only [List.length_cons] at hb
        omega
      have hidx0 : (vt.add (cx.ptrSize * (3 + i))).offset / cx.ptrSize = 3 + i := by
        simp only [Pointer.add, hoff, Nat.zero_add]
        exact Nat.mul_div_cancel_left (3 + i) hps
      constructor
      · intro hall
        have hres0 : (cx.resolveForVtable mref0).isSome = true :=
          hall mref0 (List.mem_cons_self _ _)
        obtain ⟨inst, hinst⟩ := Option.isSome_iff_exists.mp hres0
        have hwrite := writePtrSized_eq
          { allocs := m.allocs, fnAllocs := (m.nextId, inst) :: m.fnAllocs,
            nextId := m.nextId + 1 }
          cx (vt.add (cx.ptrSize * (3 + i))) (.ptr ⟨m.nextId, 0⟩) a ha hmut
          (by rw [hidx0]; exact hlen1)
        rw [hidx0] at hwrite
        have hfindW := assocFind_assocSet_same m.allocs vt.allocId
          { a with words := a.words.set (3 + i) (some (.ptr ⟨m.nextId, 0⟩)) } a ha
        have hbW : 3 + (i + 1) + rest.length ≤
            (a.words.set (3 + i) (some (Scalar.ptr ⟨m.nextId, 0⟩))).length := by
          rw [List.length_set]
          simp only [List.length_cons] at hb
          omega
        obtain ⟨hok, _⟩ := ih (i + 1)
          { allocs := assocSet m.allocs vt.allocId
              { a with words := a.words.set (3 + i) (some (.ptr ⟨m.nextId, 0⟩)) },
            fnAllocs := (m.nextId, inst) :: m.fnAllocs,
            nextId := m.nextId + 1 }
          { a with words := a.words.set (3 + i) (some (.ptr ⟨m.nextId, 0⟩)) }
          hfindW hmut hbW
        obtain ⟨m', hm'⟩ := hok (fun mref hmem => hall mref (List.mem_cons_of_mem _ hmem))
        refine ⟨m', ?_⟩
        simp only [writeMethods, hinst, Memory.createFnAlloc]
        rw [hwrite]
        exact hm'
      · rintro ⟨mref, hmem, hres⟩
        rcases List.mem_cons.mp hmem with heq | hmem'
        · have heq2 : mref = mref0 := by injection heq
          subst heq2
          exact ⟨m, by simp [writeMethods, hres]⟩
        · cases hres0 : cx.resolveForVtable mref0 with
          | none => exact ⟨m, by simp [writeMethods, hres0]⟩
          | some inst =>
            have hwrite := writePtrSized_eq
              { allocs := m.allocs, fnAllocs := (m.nextId, inst) :: m.fnAllocs,
                nextId := m.nextId + 1 }
              cx (vt.add (cx.ptrSize * (3 + i))) (.ptr ⟨m.nextId, 0⟩) a ha hmut
              (by rw [hidx0]; exact hlen1)
            rw [hidx0] at hwrite
            have hfindW := assocFind_assocSet_same m.allocs vt.allocId
              { a with words := a.words.set (3 + i) (some (.ptr ⟨m.nextId, 0⟩)) } a ha
            have hbW : 3 + (i + 1) + rest.length ≤
                (a.words.set (3 + i) (some (Scalar.ptr ⟨m.nextId, 0⟩))).length := by
              rw [List.length_set]
              simp only [List.length_cons] at hb
              omega
            obtain ⟨_, hfail⟩ := ih (i + 1)
              { allocs := assocSet m.allocs vt.allocId
                  { a with words := a.words.set (3 + i) (some (.ptr ⟨m.nextId, 0⟩)) },
                fnAllocs := (m.nextId, inst) :: m.fnAllocs,
                nextId := m.nextId + 1 }
              { a with words := a.words.set (3 + i) (some (.ptr ⟨m.nextId, 0⟩)) }
              hfindW hmut hbW
            obtain ⟨m2, hm2⟩ := hfail ⟨mref, hmem', hres⟩
            refine ⟨m2, ?_⟩
            simp only [writeMethods, hres0, Memory.createFnAlloc]
            rw [hwrite]
            exact hm2

theorem buildAlloc_eq_mid (cx : Ctx) (ty : Ty) (methods : List (Option MethodRef))
    (layout : Layout) (m0 : Memory) (hps : 0 < cx.ptrSize)
    (hfs : layout.size < 2 ^ (8 * cx.ptrSize))
    (hfa : layout.align < 2 ^ (8 * cx.ptrSize)) :
    buildAlloc cx ty methods layout m0 =
      match writeMethods cx ⟨m0.nextId, 0⟩ methods 0
          (buildMid cx ty methods layout m0) with
      | .error em => .error em
      | .ok m6 =>
        match m6.markImmutable m0.nextId with
        | .error e => .error (e, m6)
        | .ok m7 => .ok (⟨m0.nextId, 0⟩, m7) := by
  have hpos : 0 < 3 + methods.length := by omega
  have h1 : 1 < 3 + methods.length := by omega
  have h2 : 2 < 3 + methods.length := by omega
  simp only [buildAlloc, buildMid, Memory.allocate, Memory.createFnAlloc,
    Memory.writePtrSized, Scalar.fromUint, Pointer.add, assocFind_cons,
    assocSet, Nat.zero_add, Nat.zero_div, Nat.div_self hps,
    Nat.mul_div_cancel_left (3 + methods.length) hps,
    Nat.mul_div_cancel_left 2 hps,
    List.length_replicate, List.length_set,
    eq_self_iff_true, if_true, hpos, h1, h2, hfs, hfa]

theorem midWords_facts (M : Nat) (w0 w1 w2 : Option Scalar) :
    ((((List.replicate (3 + M) (none : Option Scalar)).set 0 w0).set 1 w1).set 2
        w2).length = 3 + M ∧
    ((((List.replicate (3 + M) (none : Option Scalar)).set 0 w0).set 1 w1).set 2
        w2).getD 0 none = w0 ∧
    ((((List.replicate (3 + M) (none : Option Scalar)).set 0 w0).set 1 w1).set 2
        w2).getD 1 none = w1 ∧
    ((((List.replicate (3 + M) (none : Option Scalar)).set 0 w0).set 1 w1).set 2
        w2).getD 2 none = w2 ∧
    ∀ j, ((((List.replicate (3 + M) (none : Option Scalar)).set 0 w0).set 1
        w1).set 2 w2).getD (3 + j) none = none := by
  refine ⟨?_, ?_, ?_, ?_, ?_⟩
  · simp [List.length_set, List.length_replicate]
  · rw [getD_set_other _ _ _ _ _ (by omega), getD_set_other _ _ _ _ _ (by omega)]
    exact getD_set_same _ _ _ _ (by simp [List.length_replicate])
  · rw [getD_set_other _ _ _ _ _ (by omega)]
    exact getD_set_same _ _ _ _
      (by simp [List.length_set, List.length_replicate]; omega)
  · exact getD_set_same _ _ _ _
      (by simp [List.length_set, List.length_replicate]; omega)
  · intro j
    rw [getD_set_other _ _ _ _ _ (by omega), getD_set_other _ _ _ _ _ (by omega),
        getD_set_other _ _ _ _ _ (by omega)]
    exact getD_replicate_self _ _ _

theorem buildAlloc_ok_fits (cx : Ctx) (ty : Ty)
    (methods : List (Option MethodRef)) (layout : Layout) (m0 : Memory)
    (vt : Pointer) (m' : Memory)
    (h : buildAlloc cx ty methods layout m0 = .ok (vt, m')) :
    layout.size < 2 ^ (8 * cx.ptrSize) ∧
    layout.align < 2 ^ (8 * cx.ptrSize) := by
  unfold buildAlloc at h
  simp only [Memory.allocate, Memory.createFnAlloc] at h
  split at h
  · exact Except.noConfusion h
  · next m3 hw3 =>
    split at h
    · exact Except.noConfusion h
    · next szS hsz =>
      have hfs : layout.size < 2 ^ (8 * cx.ptrSize) := by
        unfold Scalar.fromUint at hsz
        split at hsz
        · assumption
        · exact Except.noConfusion hsz
      split at h
      · exact Except.noConfusion h
      · next m4 hw4 =>
        split at h
        · exact Except.noConfusion h
        · next alS hal =>
          have hfa : layout.align < 2 ^ (8 * cx.ptrSize) := by
            unfold Scalar.fromUint at hal
            split at hal
            · assumption
            · exact Except.noConfusion hal
          exact ⟨hfs, hfa⟩

theorem buildAlloc_ok_inv (cx : Ctx) (ty : Ty)
    (methods : List (Option MethodRef)) (layout : Layout) (m0 : Memory)
    (vt : Pointer) (m' : Memory) (hps : 0 < cx.ptrSize)
    (h : buildAlloc cx ty methods layout m0 = .ok (vt, m')) :
    vt = ⟨m0.nextId, 0⟩ ∧
    ∃ a, assocFind m'.allocs m0.nextId = some a ∧
      a.words.length = 3 + methods.length ∧
      a.words.getD 0 none = some (.ptr ⟨m0.nextId + 1, 0⟩) ∧
      a.words.getD 1 none = some (.uint layout.size) ∧
      a.words.getD 2 none = some (.uint layout.align) ∧
      (∀ j, j < methods.length → methods.getD j none = none →
        a.words.getD (3 + j) none = none) ∧
      assocFind m'.fnAllocs (m0.nextId + 1) = some (cx.resolveDropInPlace ty) := by
  obtain ⟨hfs, hfa⟩ := buildAlloc_ok_fits cx ty methods layout m0 vt m' h
  rw [buildAlloc_eq_mid cx ty methods layout m0 hps hfs hfa] at h
  split at h
  · exact Except.noConfusion h
  · next m6 hwm =>
    split at h
    · exact Except.noConfusion h
    · next m7 hmi =>
      injection h with h2
      injection h2 with hvt hm
      subst hm
      obtain ⟨hW1, hW2, hW3, hW4, hW5⟩ := midWords_facts methods.length
        (some (.ptr ⟨m0.nextId + 1, 0⟩)) (some (.uint layout.size))
        (some (.uint layout.align))
      have hmidfind : assocFind (buildMid cx ty methods layout m0).allocs
          m0.nextId = some
          { words := (((List.replicate (3 + methods.length)
                (none : Option Scalar)).set 0
                (some (.ptr ⟨m0.nextId + 1, 0⟩))).set 1
                (some (.uint layout.size))).set 2
                (some (.uint layout.align)),
            mutableFlag := true,
            kind := MemoryKind.vtableKind } := by
        simp [buildMid, assocFind_cons]
      obtain ⟨h1, h2, h3, h4⟩ := writeMethods_ok_inv cx ⟨m0.nextId, 0⟩ hps rfl
        methods 0 (buildMid cx ty methods layout m0) m6 hwm
      obtain ⟨a6, hfind6, hmut6, hlen6, hidx6, hslot6⟩ := h4 _ hmidfind
      obtain ⟨aM, hfindM, hm7⟩ := markImmutable_ok_inv m6 m7 m0.nextId hmi
      have haM : aM = a6 := by
        have hh := hfindM.symm.trans hfind6
        exact (Option.some.injEq _ _).mp hh
      subst haM
      refine ⟨hvt.symm, { aM with mutableFlag := false }, ?_, ?_, ?_, ?_, ?_, ?_, ?_⟩
      · rw [hm7]
        exact assocFind_assocSet_same _ _ _ _ hfindM
      · show aM.words.length = 3 + methods.length
        rw [hlen6]
        exact hW1
      · show aM.words.getD 0 none = _
        rw [hidx6 0 (by omega)]
        exact hW2
      · show aM.words.getD 1 none = _
        rw [hidx6 1 (by omega)]
        exact hW3
      · show aM.words.getD 2 none = _
        rw [hidx6 2 (by omega)]
        exact hW4
      · intro j hj hnone
        show aM.words.getD (3 + j) none = none
        have hh := hslot6 j hj hnone
        rw [hh]
        exact hW5 j
      · rw [hm7]
        show assocFind m6.fnAllocs (m0.nextId + 1) = _
        rw [h2 (m0.nextId + 1) (by simp [buildMid])]
        simp [buildMid, assocFind_cons]

theorem buildAlloc_runs (cx : Ctx) (ty : Ty) (methods : List (Option MethodRef))
    (layout : Layout) (m0 : Memory) (hps : 0 < cx.ptrSize)
    (hfs : layout.size < 2 ^ (8 * cx.ptrSize))
    (hfa : layout.align < 2 ^ (8 * cx.ptrSize)) :
    ((∀ mref, some mref ∈ methods → (cx.resolveForVtable mref).isSome = true) →
      ∃ vt m', buildAlloc cx ty methods layout m0 = .ok (vt, m')) ∧
    ((∃ mref, some mref ∈ methods ∧ cx.resolveForVtable mref = none) →
      ∃ m2, buildAlloc cx ty methods layout m0 = .error (.tooGeneric, m2)) := by
  have hmidfind : assocFind (buildMid cx ty methods layout m0).allocs
      m0.nextId = some
      { words := (((List.replicate (3 + methods.length)
            (none : Option Scalar)).set 0
            (some (.ptr ⟨m0.nextId + 1, 0⟩))).set 1
            (some (.uint layout.size))).set 2
            (some (.uint layout.align)),
        mutableFlag := true,
        kind := MemoryKind.vtableKind } := by
    simp [buildMid, assocFind_cons]
  have hbound : 3 + 0 + methods.length ≤
      ((((List.replicate (3 + methods.length) (none : Option Scalar)).set 0
          (some (.ptr ⟨m0.nextId + 1, 0⟩))).set 1
          (some (.uint layout.size))).set 2
          (some (.uint layout.align))).length := by
    simp [List.length_set, List.length_replicate]
  rw [buildAlloc_eq_mid cx ty methods layout m0 hps hfs hfa]
  constructor
  · intro hall
    obtain ⟨m6, hm6⟩ := (writeMethods_runs cx ⟨m0.nextId, 0⟩ hps rfl methods 0
        (buildMid cx ty methods layout m0) _ hmidfind rfl hbound).1 hall
    obtain ⟨h1, h2, h3, h4⟩ := writeMethods_ok_inv cx ⟨m0.nextId, 0⟩ hps rfl
        methods 0 _ m6 hm6
    obtain ⟨a6, hfind6, _, _, _, _⟩ := h4 _ hmidfind
    refine ⟨⟨m0.nextId, 0⟩,
      { m6 with allocs :=
          (assocSet m6.allocs m0.nextId { a6 with mutableFlag := false }) }, ?_⟩
    simp only [hm6, markImmutable_eq m6 m0.nextId a6 hfind6]
  · intro hex
    obtain ⟨m2, hm2⟩ := (writeMethods_runs cx ⟨m0.nextId, 0⟩ hps rfl methods 0
        (buildMid cx ty methods layout m0) _ hmidfind rfl hbound).2 hex
    refine ⟨m2, ?_⟩
    simp only [hm2]

theorem get_vtable_ok_inv (cx : Ctx) (s : EvalState) (ty0 ty : Ty)
    (tr0 tr : Option TraitRef) (p : Pointer) (s' : EvalState)
    (hps : 0 < cx.ptrSize)
    (he : cx.eraseRegions (ty0, tr0) = (ty, tr))
    (hmiss : assocFind s.vtables (ty, tr) = none)
    (h : get_vtable cx s ty0 tr0 = (.ok p, s')) :
    ∃ layout, cx.layoutOf ty = .ok layout ∧
      p = ⟨s.mem.nextId, 0⟩ ∧
      s'.vtables = ((ty, tr), p) :: s.vtables ∧
      ∃ a, assocFind s'.mem.allocs p.allocId = some a ∧
        a.words.length = 3 + (methodsOf cx ty tr).length ∧
        a.words.getD 0 none = some (.ptr ⟨s.mem.nextId + 1, 0⟩) ∧
        a.words.getD 1 none = some (.uint layout.size) ∧
        a.words.getD 2 none = some (.uint layout.align) ∧
        (∀ j, j < (methodsOf cx ty tr).length →
          (methodsOf cx ty tr).getD j none = none →
          a.words.getD (3 + j) none = none) ∧
        assocFind s'.mem.fnAllocs (s.mem.nextId + 1) =
          some (cx.resolveDropInPlace ty) := by
  unfold get_vtable at h
  split at h
  next ty1 tr1 heq1 =>
  rw [he] at heq1
  injection heq1 with hty htr
  subst hty
  subst htr
  split at h
  · injection h with hA hB
    exact Except.noConfusion hA
  · split at h
    · next v heq2 =>
      rw [hmiss] at heq2
      exact Option.noConfusion heq2
    · next heq2 =>
      split at h
      · injection h with hA hB
        exact Except.noConfusion hA
      · next layout hlay =>
        split at h
        · injection h with hA hB
          exact Except.noConfusion hA
        · next hsized =>
          split at h
          · next e m2 hba =>
            injection h with hA hB
            exact Except.noConfusion hA
          · next vtable m2 hba =>
            split at h
            · next v heq3 =>
              exact Option.noConfusion heq3
            · next heq3 =>
              injection h with hA hB
              injection hA with hA
              subst hA
              subst hB
              obtain ⟨hvt, a, hfind, hlen, hw0, hw1, hw2, hslot, hfn⟩ :=
                buildAlloc_ok_inv cx ty (methodsOf cx ty tr) layout s.mem
                  vtable m2 hps hba
              subst hvt
              exact ⟨layout, hlay, rfl, rfl, a, hfind, hlen, hw0, hw1, hw2,
                hslot, hfn⟩

/-- C1: once build(T, D) has returned a table address, calling it again in
the resulting state hits the cache: it returns the identical address and
leaves the state (memory and cache) exactly unchanged, so at most one table
exists per normalized (type, descriptor) pair. -/
theorem get_vtable_cached (cx : Ctx) (s s' : EvalState) (ty0 : Ty)
    (tr0 : Option TraitRef) (p : Pointer)
    (h : get_vtable cx s ty0 tr0 = (.ok p, s')) :
    get_vtable cx s' ty0 tr0 = (.ok p, s') := by
  unfold get_vtable at h
  split at h
  next ty1 tr1 heq1 =>
  split at h
  · next hgen =>
    injection h with hA hB
    exact Except.noConfusion hA
  · next hgen =>
    split at h
    · next v heq3 =>
      injection h with hA hB
      injection hA with hv
      subst hv
      subst hB
      simp [get_vtable, heq1, hgen, heq3]
    · next heq3 =>
      split at h
      · injection h with hA hB
        exact Except.noConfusion hA
      · next layout hlay =>
        split at h
        · injection h with hA hB
          exact Except.noConfusion hA
        · next hsz =>
          split at h
          · next e m2 hba =>
            injection h with hA hB
            exact Except.noConfusion hA
          · next vtable m2 hba =>
            split at h
            · next v heq4 =>
              exact Option.noConfusion heq4
            · next heq4 =>
              injection h with hA hB
              injection hA with hv
              subst hv
              subst hB
              simp [get_vtable, heq1, hgen, assocFind_cons]

/-- C4: when the region-erased input type or descriptor still needs
substitution, get_vtable fails with TooGeneric and returns the state
unchanged: no allocation is performed and the cache is untouched. -/
theorem get_vtable_too_generic (cx : Ctx) (s : EvalState) (ty0 ty : Ty)
    (tr0 tr : Option TraitRef)
    (he : cx.eraseRegions (ty0, tr0) = (ty, tr))
    (hgen : ty.needsSubst = true ∨ needsSubstOpt tr = true) :
    get_vtable cx s ty0 tr0 = (.error .tooGeneric, s) := by
  have hcond : (ty.needsSubst || needsSubstOpt tr) = true := by
    rcases hgen with hg | hg <;> simp [hg]
  simp [get_vtable, he, hcond]

theorem read_size_align_eval (cx : Ctx) (s : EvalState) (aid : Nat)
    (a : Allocation) (sz al : Nat)
    (hps : 0 < cx.ptrSize)
    (ha : assocFind s.mem.allocs aid = some a)
    (hlen : 3 ≤ a.words.length)
    (h1 : a.words.getD 1 none = some (.uint sz))
    (h2 : a.words.getD 2 none = some (.uint al)) :
    read_size_and_align_from_vtable cx s (.ptr ⟨aid, 0⟩) =
      (if cx.objSizeBound ≤ sz then .error .undefinedBehavior
       else if isPow2 al then .ok (sz, al) else .error .assertFail) := by
  have hne0 : ¬ (3 * cx.ptrSize = 0) := by omega
  have hle : 3 * cx.ptrSize ≤ a.words.length * cx.ptrSize :=
    Nat.mul_le_mul_right _ hlen
  have hb1 : 1 < a.words.length := by omega
  have hb2 : 2 < a.words.length := by omega
  simp only [read_size_and_align_from_vtable, checkPtrAccess, Memory.getRaw,
    Allocation.readWord, Pointer.add, notUndef, forceBits,
    ha, hne0, hle, Nat.zero_mod, Nat.zero_add,
    Nat.div_self hps, Nat.mul_div_cancel_left 2 hps, hb1, hb2, h1, h2,
    if_true, if_false, true_and, and_self, eq_self_iff_true, not_false_iff]

/-- C10: on a table whose word 1 stores size sz and word 2 a power-of-two
alignment, read_size_and_align_from_vtable fails with UndefinedBehavior
exactly when sz reaches the platform object-size bound; any stored size
strictly below the bound passes the check and the pair is returned. -/
theorem read_size_and_align_size_bound (cx : Ctx) (s : EvalState) (aid : Nat)
    (a : Allocation) (sz al : Nat)
    (hps : 0 < cx.ptrSize)
    (ha : assocFind s.mem.allocs aid = some a)
    (hlen : 3 ≤ a.words.length)
    (h1 : a.words.getD 1 none = some (.uint sz))
    (h2 : a.words.getD 2 none = some (.uint al))
    (hal : isPow2 al = true) :
    (cx.objSizeBound ≤ sz →
      read_size_and_align_from_vtable cx s (.ptr ⟨aid, 0⟩) =
        .error .undefinedBehavior) ∧
    (sz < cx.objSizeBound →
      read_size_and_align_from_vtable cx s (.ptr ⟨aid, 0⟩) = .ok (sz, al)) := by
  have heval := read_size_align_eval cx s aid a sz al hps ha hlen h1 h2
  constructor
  · intro hge
    rw [heval, if_pos hge]
  · intro hlt
    rw [heval, if_neg (by omega), if_pos hal]

/-- C2: a freshly built table holds the layout oracle's size for T in word 1
and its alignment in word 2 (as pointer-width unsigned integers), and
read_size_and_align_from_vtable on the fresh table returns exactly that
(size, align) pair. -/
theorem get_vtable_layout_words (cx : Ctx) (s : EvalState) (ty0 ty : Ty)
    (tr0 tr : Option TraitRef) (p : Pointer) (s' : EvalState) (layout : Layout)
    (hps : 0 < cx.ptrSize)
    (he : cx.eraseRegions (ty0, tr0) = (ty, tr))
    (hmiss : assocFind s.vtables (ty, tr) = none)
    (h : get_vtable cx s ty0 tr0 = (.ok p, s'))
    (hlay : cx.layoutOf ty = .ok layout)
    (hsb : layout.size < cx.objSizeBound)
    (hpw : isPow2 layout.align = true) :
    ∃ a, assocFind s'.mem.allocs p.allocId = some a ∧
      a.words.getD 1 none = some (.uint layout.size) ∧
      a.words.getD 2 none = some (.uint layout.align) ∧
      read_size_and_align_from_vtable cx s' (.ptr p) =
        .ok (layout.size, layout.align) := by
  obtain ⟨layout2, hlay2, hp, hvt, a, hfind, hlen, hw0, hw1, hw2, hslot, hfn⟩ :=
    get_vtable_ok_inv cx s ty0 ty tr0 tr p s' hps he hmiss h
  have hl : layout2 = layout := by
    have hh := hlay2.symm.trans hlay
    exact (Except.ok.injEq _ _).mp hh
  subst hl
  subst hp
  refine ⟨a, hfind, hw1, hw2, ?_⟩
  have heval := read_size_align_eval cx s' s.mem.nextId a layout2.size
    layout2.align hps hfind (by omega) hw1 hw2
  rw [heval, if_neg (by omega), if_pos hpw]

/-- C3: on a fresh build for a normalized type, reading back the table
recovers the drop instance that resolve_drop_in_place produced for T
together with the concrete type T itself, obtained from the drop function's
first parameter. -/
theorem read_drop_type_roundtrip (cx : Ctx) (s : EvalState) (ty : Ty)
    (tr : Option TraitRef) (p : Pointer) (s' : EvalState)
    (hps : 0 < cx.ptrSize)
    (he : cx.eraseRegions (ty, tr) = (ty, tr))
    (hmiss : assocFind s.vtables (ty, tr) = none)
    (h : get_vtable cx s ty tr = (.ok p, s'))
    (hdp : cx.dropParamTy (cx.resolveDropInPlace ty) = some ty) :
    read_drop_type_from_vtable cx s' (.ptr p) =
      .ok (cx.resolveDropInPlace ty, ty) := by
  obtain ⟨layout, hlay, hp, hvt, a, hfind, hlen, hw0, hw1, hw2, hslot, hfn⟩ :=
    get_vtable_ok_inv cx s ty ty tr tr p s' hps he hmiss h
  subst hp
  have hne0 : ¬ (cx.ptrSize = 0) := by omega
  have hle : cx.ptrSize ≤ a.words.length * cx.ptrSize := by
    have hh : 1 * cx.ptrSize ≤ a.words.length * cx.ptrSize :=
      Nat.mul_le_mul_right _ (by omega)
    simpa using hh
  have hb0 : 0 < a.words.length := by omega
  simp only [read_drop_type_from_vtable, checkPtrAccess, Memory.getRaw,
    Allocation.readWord, notUndef, Memory.getFn, hfind, hw0, hfn, hdp,
    hne0, hle, Nat.zero_mod, Nat.zero_div, Nat.zero_add, hb0,
    if_true, if_false, true_and, and_self, eq_self_iff_true, not_false_iff]

/-- C9: during a fresh build, a present method entry whose resolution fails
makes the whole build fail with TooGeneric, while absent entries leave their
slot undefined and the build succeeds - partial tables are valid. -/
theorem get_vtable_method_slots (cx : Ctx) (s : EvalState) (ty : Ty)
    (tr : Option TraitRef) (layout : Layout)
    (hps : 0 < cx.ptrSize)
    (he : cx.eraseRegions (ty, tr) = (ty, tr))
    (hgen1 : ty.needsSubst = false) (hgen2 : needsSubstOpt tr = false)
    (hmiss : assocFind s.vtables (ty, tr) = none)
    (hlay : cx.layoutOf ty = .ok layout) (hsz : layout.isUnsized = false)
    (hfs : layout.size < 2 ^ (8 * cx.ptrSize))
    (hfa : layout.align < 2 ^ (8 * cx.ptrSize)) :
    ((∃ mref, some mref ∈ methodsOf cx ty tr ∧
        cx.resolveForVtable mref = none) →
      ∃ s2, get_vtable cx s ty tr = (.error .tooGeneric, s2)) ∧
    ((∀ mref, some mref ∈ methodsOf cx ty tr →
        (cx.resolveForVtable mref).isSome = true) →
      ∃ p s' a, get_vtable cx s ty tr = (.ok p, s') ∧
        assocFind s'.mem.allocs p.allocId = some a ∧
        ∀ j, j < (methodsOf cx ty tr).length →
          (methodsOf cx ty tr).getD j none = none →
          a.words.getD (3 + j) none = none) := by
  have hcond : (ty.needsSubst || needsSubstOpt tr) = false := by
    simp [hgen1, hgen2]
  obtain ⟨hok, hfail⟩ :=
    buildAlloc_runs cx ty (methodsOf cx ty tr) layout s.mem hps hfs hfa
  constructor
  · intro hex
    obtain ⟨m2, hm2⟩ := hfail hex
    refine ⟨{ s with mem := m2 }, ?_⟩
    simp only [get_vtable, he, hcond, hmiss, hlay, hsz, hm2,
      Bool.false_eq_true, if_false]
  · intro hall
    obtain ⟨vt, m', hbm⟩ := hok hall
    obtain ⟨hvt, a, hfind, hlen, hw0, hw1, hw2, hslot, hfn⟩ :=
      buildAlloc_ok_inv cx ty (methodsOf cx ty tr) layout s.mem vt m' hps hbm
    subst hvt
    refine ⟨⟨s.mem.nextId, 0⟩,
      { mem := m', vtables := ((ty, tr), ⟨s.mem.nextId, 0⟩) :: s.vtables },
      a, ?_, hfind, hslot⟩
    simp only [get_vtable, he, hcond, hmiss, hlay, hsz, hbm,
      Bool.false_eq_true, if_false]

/-- Witness for C1: rebuilding (wTy, wTrait) in the state left by the first
build returns the same address ⟨0, 0⟩ and the unchanged state. -/
theorem get_vtable_cached_witness :
    get_vtable wCtx wS1 wTy (some wTrait) = (.ok ⟨0, 0⟩, wS1) :=
  get_vtable_cached wCtx wS0 wS1 wTy (some wTrait) ⟨0, 0⟩ rfl

/-- Witness for C4: a type that still needs substitution is rejected with
TooGeneric and the empty state is returned untouched. -/
theorem get_vtable_too_generic_witness :
    get_vtable wCtx wS0 wGenericTy none = (.error .tooGeneric, wS0) :=
  get_vtable_too_generic wCtx wS0 wGenericTy wGenericTy none none rfl
    (Or.inl rfl)

/-- Witness for C2: the table built for wTy stores size 16 and alignment 8,
and reading them back returns (16, 8). -/
theorem get_vtable_layout_words_witness :
    ∃ a, assocFind wS1.mem.allocs (Pointer.mk 0 0).allocId = some a ∧
      a.words.getD 1 none = some (.uint 16) ∧
      a.words.getD 2 none = some (.uint 8) ∧
      read_size_and_align_from_vtable wCtx wS1 (.ptr ⟨0, 0⟩) = .ok (16, 8) :=
  get_vtable_layout_words wCtx wS0 wTy wTy (some wTrait) (some wTrait)
    ⟨0, 0⟩ wS1 { size := 16, align := 8, isUnsized := false }
    (by decide) rfl rfl rfl rfl (by decide) (by decide)

/-- Witness for C3: reading the drop entry of the freshly built table yields
the drop instance 100 and recovers the concrete type wTy. -/
theorem read_drop_type_roundtrip_witness :
    read_drop_type_from_vtable wCtx wS1 (.ptr ⟨0, 0⟩) =
      .ok ({ code := 100 }, wTy) :=
  read_drop_type_roundtrip wCtx wS0 wTy (some wTrait) ⟨0, 0⟩ wS1
    (by decide) rfl rfl rfl rfl

/-- Witness for C9: with the unresolvable context the build fails with
TooGeneric; with the resolvable context it succeeds and slot 3 (the absent
first method entry) stays undefined. -/
theorem get_vtable_method_slots_witness :
    (∃ s2, get_vtable wCtxBad wS0 wTy (some wTrait) =
      (.error .tooGeneric, s2)) ∧
    (∃ p s' a, get_vtable wCtx wS0 wTy (some wTrait) = (.ok p, s') ∧
      assocFind s'.mem.allocs p.allocId = some a ∧
      ∀ j, j < (methodsOf wCtx wTy (some wTrait)).length →
        (methodsOf wCtx wTy (some wTrait)).getD j none = none →
        a.words.getD (3 + j) none = none) :=
  ⟨(get_vtable_method_slots wCtxBad wS0 wTy (some wTrait)
      { size := 16, align := 8, isUnsized := false }
      (by decide) rfl rfl rfl rfl rfl rfl (by decide) (by decide)).1
      ⟨⟨7, 0⟩, by decide, rfl⟩,
   (get_vtable_method_slots wCtx wS0 wTy (some wTrait)
      { size := 16, align := 8, isUnsized := false }
      (by decide) rfl rfl rfl rfl rfl rfl (by decide) (by decide)).2
      (fun _ _ => rfl)⟩

/-- Witness for C10: a stored size of 5000 with bound 4096 is rejected as
undefined behavior, while a stored size of 16 passes and (16, 8) is read. -/
theorem read_size_and_align_size_bound_witness :
    read_size_and_align_from_vtable wCtx wBadTableState (.ptr ⟨0, 0⟩) =
      .error .undefinedBehavior ∧
    read_size_and_align_from_vtable wCtx wGoodTableState (.ptr ⟨0, 0⟩) =
      .ok (16, 8) :=
  ⟨(read_size_and_align_size_bound wCtx wBadTableState 0
      { words := [none, some (.uint 5000), some (.uint 8)],
        mutableFlag := false, kind := MemoryKind.vtableKind }
      5000 8 (by decide) rfl (by decide) rfl rfl (by decide)).1 (by decide),
   (read_size_and_align_size_bound wCtx wGoodTableState 0
      { words := [none, some (.uint 16), some (.uint 8)],
        mutableFlag := false, kind := MemoryKind.vtableKind }
      16 8 (by decide) rfl (by decide) rfl rfl (by decide)).2 (by decide)⟩

end Vt
